import Mathlib

/-!
Verification of the territory-tracking core of `tpl-system`
(source: the React application in `src/unnamed/part_002`).

The data model, the aggregate recalculator, the role hierarchy, the
house-status cycle, the chalk resequencing, the base64/UTF-8 transport
codec and the optimistic mutation/commit pipeline are embedded as pure
Lean functions and the claimed properties are proved about them.

JS `Record<string, T>` objects are embedded as association lists
`List (String × T)`; property read, property write and `delete` are the
`getA`, `setA`, `modifyA` and filter operations below, which preserve
insertion order exactly as JS objects preserve key order for the
string keys this application uses.
-/

namespace TplSystem

/-- User roles, `type UserRole = 'Comum' | 'Capitão' | 'Admin' | 'Super Admin'`
(part_002, line 23).  The constructors are ASCII renamings of the four labels. -/
inductive UserRole where
  | comum
  | capitao
  | admin
  | superAdmin
  deriving DecidableEq, Fintype

/-- `roleHierarchy` (part_002, lines 72-77): `Comum: 0, 'Capitão': 1, Admin: 2,
'Super Admin': 3`. -/
def roleHierarchy : UserRole → Nat
  | .comum => 0
  | .capitao => 1
  | .admin => 2
  | .superAdmin => 3

/-- `hasCapability` (part_002, lines 112-113):
`roleHierarchy[role] >= roleHierarchy[required]`. -/
def hasCapability (role required : UserRole) : Bool :=
  decide (roleHierarchy role ≥ roleHierarchy required)

/-- `statusCycle` (part_002, line 79): `[1, 2, 3, 4]`. -/
def statusCycle : List Nat := [1, 2, 3, 4]

/-- `HouseRecord` (part_002, lines 27-33).  The TS type limits `status` to
`1 | 2 | 3 | 4`; it is embedded as `Nat`, with the 1..4 bound carried as a
hypothesis where a claim needs it.  `lastVisit : string | null` becomes
`Option String`. -/
structure HouseRecord where
  status : Nat
  chalkNumber : String
  officialNumber : String
  notes : String
  lastVisit : Option String
  deriving DecidableEq

/-- The `summary` field of `BlockRecord` (part_002, lines 36-42). -/
structure Summary where
  total : Nat
  verde : Nat
  amarelo : Nat
  laranja : Nat
  vermelho : Nat
  deriving DecidableEq

/-- `BlockRecord` (part_002, lines 35-45). -/
structure BlockRecord where
  summary : Summary
  imageUrl : String
  houses : List (String × HouseRecord)
  deriving DecidableEq

/-- `TerritoryRecord` (part_002, lines 47-52). -/
structure TerritoryRecord where
  name : String
  status : String
  lastUse : String
  blocks : List (String × BlockRecord)
  deriving DecidableEq

/-- `AppConfig` (part_002, lines 54-57). -/
structure AppConfig where
  superAdminEmail : String
  userRoles : List (String × UserRole)
  deriving DecidableEq

/-- `AppData` (part_002, lines 59-62). -/
structure AppData where
  appConfig : AppConfig
  territories : List (String × TerritoryRecord)
  deriving DecidableEq

/-- Property read `obj[k]` on a JS record. -/
def getA {α : Type} : List (String × α) → String → Option α
  | [], _ => none
  | (k', v) :: rest, k => if k' = k then some v else getA rest k

/-- Property write `obj[k] = v` on a JS record: replaces the value in place
when the key exists, appends the key otherwise (JS insertion order). -/
def setA {α : Type} : List (String × α) → String → α → List (String × α)
  | [], k, v => [(k, v)]
  | (k', v') :: rest, k, v =>
    if k' = k then (k', v) :: rest else (k', v') :: setA rest k v

/-- In-place update `f` of the property `k` (`obj[k].field = ...`);
a no-op when the key is missing. -/
def modifyA {α : Type} : List (String × α) → String → (α → α) → List (String × α)
  | [], _, _ => []
  | (k', v) :: rest, k, f =>
    if k' = k then (k', f v) :: rest else (k', v) :: modifyA rest k f

/-- `recalcBlockSummary` (part_002, lines 118-134): rebuilds the summary from
scratch — the loop increments `total` for every house and the matching
per-status counter when `house.status` is 1, 2, 3 or 4. -/
def recalcBlockSummary (b : BlockRecord) : BlockRecord :=
  { b with summary :=
    { total := b.houses.length
      verde := b.houses.countP (fun p => p.2.status == 1)
      amarelo := b.houses.countP (fun p => p.2.status == 2)
      laranja := b.houses.countP (fun p => p.2.status == 3)
      vermelho := b.houses.countP (fun p => p.2.status == 4) } }

/-- The derived-summary invariant claimed for every Block after every
mutation: `total` counts all houses and each per-status counter counts the
houses carrying that status. -/
def summaryInv (b : BlockRecord) : Prop :=
  b.summary.total = b.houses.length ∧
  b.summary.verde = b.houses.countP (fun p => p.2.status == 1) ∧
  b.summary.amarelo = b.houses.countP (fun p => p.2.status == 2) ∧
  b.summary.laranja = b.houses.countP (fun p => p.2.status == 3) ∧
  b.summary.vermelho = b.houses.countP (fun p => p.2.status == 4)

/-- `cycleHouseStatus` status step (part_002, lines 538-539):
`currentIndex = statusCycle.indexOf(house.status)` (JS `indexOf` yields `-1`
when absent) and `nextStatus = statusCycle[(currentIndex + 1) % 4]`. -/
def cycleStatus (s : Nat) : Nat :=
  let currentIndex : Int :=
    match statusCycle.findIdx? (fun x => x == s) with
    | some i => (i : Int)
    | none => -1
  statusCycle.getD ((currentIndex + 1) % 4).toNat 0

/-- The house part of `cycleHouseStatus` (part_002, lines 540-541): advance
the status and stamp `lastVisit` with the current time on every call. -/
def cycleHouse (now : String) (h : HouseRecord) : HouseRecord :=
  { h with status := cycleStatus h.status, lastVisit := some now }

/-- One digit character, `0`..`9`. -/
def digitChar (d : Nat) : Char :=
  if d = 0 then '0' else if d = 1 then '1' else if d = 2 then '2'
  else if d = 3 then '3' else if d = 4 then '4' else if d = 5 then '5'
  else if d = 6 then '6' else if d = 7 then '7' else if d = 8 then '8' else '9'

/-- Decimal digits of `n`, most significant first; `fuel`-structured so that
it evaluates by kernel reduction (the caller passes `fuel = n`, which always
suffices since `n / 10 < n`). -/
def natToKeyAux : Nat → Nat → List Char
  | 0, n => [digitChar (n % 10)]
  | fuel + 1, n =>
    if n < 10 then [digitChar n] else natToKeyAux fuel (n / 10) ++ [digitChar (n % 10)]

/-- JS `String(index)`: the canonical decimal rendering of a natural number. -/
def natToKey (n : Nat) : String :=
  ⟨natToKeyAux n n⟩

/-- Value of a decimal digit string, most significant first. -/
def digitsVal (cs : List Char) : Nat :=
  cs.foldl (fun a c => a * 10 + (c.toNat - 48)) 0

/-- JS `Number(key)` restricted to the keys this application generates:
a nonempty all-digit string parses to its decimal value, anything else is
treated as `NaN` (`none`) and therefore survives the resequencing delete
loop, exactly as `Number.isFinite(Number(key))` fails for non-numeric keys. -/
def keyNum? (s : String) : Option Nat :=
  if s.data.isEmpty then none
  else if s.data.all Char.isDigit then some (digitsVal s.data)
  else none

/-- The house created by `applyChalkSequencing` / `upsertBlock` for a missing
key (part_002, lines 571-577 and 659-665). -/
def defaultHouse (key : String) : HouseRecord :=
  { status := 1, chalkNumber := key, officialNumber := "", notes := "", lastVisit := none }

/-- One pass of the `applyChalkSequencing` fill loop for the key `k`
(part_002, lines 568-580): create the default house when the key is absent,
then assign `chalkNumber = key`. -/
def seqStep (hs : List (String × HouseRecord)) (k : String) : List (String × HouseRecord) :=
  modifyA (if (getA hs k).isSome then hs else hs ++ [(k, defaultHouse k)]) k
    (fun h => { h with chalkNumber := k })

/-- The keys `String(1) .. String(max)` visited by the fill loops. -/
def keyList (max : Nat) : List String :=
  (List.range' 1 max).map natToKey

/-- Keep-predicate of the `applyChalkSequencing` delete loop (part_002,
lines 581-586): a house is deleted when its key parses to a finite number
greater than `max`. -/
def chalkKeep (max : Nat) (k : String) : Bool :=
  match keyNum? k with
  | some m => decide (m ≤ max)
  | none => true

/-- Block-level `applyChalkSequencing` (part_002, lines 563-591): fill keys
`1..max`, delete numeric keys above `max`, then rebuild the summary. -/
def applyChalkSequencingB (max : Nat) (b : BlockRecord) : BlockRecord :=
  let hs1 := (keyList max).foldl seqStep b.houses
  let hs2 := hs1.filter (fun p => chalkKeep max p.1)
  recalcBlockSummary { b with houses := hs2 }

/-- Block-level `cycleHouseStatus` (part_002, lines 532-546): `none` models
the TS contract violation of a missing house id (the source would throw
before touching the state). -/
def cycleHouseStatusB (now : String) (houseId : String) (b : BlockRecord) :
    Option BlockRecord :=
  match getA b.houses houseId with
  | none => none
  | some h =>
    some (recalcBlockSummary
      { b with houses := setA b.houses houseId (cycleHouse now h) })

/-- The `Partial<HouseRecord>` argument of `updateHouseData`: `some` marks a
field present in the update object. -/
structure HouseUpdates where
  status : Option Nat
  chalkNumber : Option String
  officialNumber : Option String
  notes : Option String
  lastVisit : Option (Option String)
  deriving DecidableEq

/-- JS spread `{ ...house, ...updates }`. -/
def mergeHouse (h : HouseRecord) (u : HouseUpdates) : HouseRecord :=
  { status := u.status.getD h.status
    chalkNumber := u.chalkNumber.getD h.chalkNumber
    officialNumber := u.officialNumber.getD h.officialNumber
    notes := u.notes.getD h.notes
    lastVisit := u.lastVisit.getD h.lastVisit }

/-- Block-level `updateHouseData` (part_002, lines 548-561); `none` models a
missing house id, which the TS type rules out. -/
def updateHouseDataB (houseId : String) (u : HouseUpdates) (b : BlockRecord) :
    Option BlockRecord :=
  match getA b.houses houseId with
  | none => none
  | some h =>
    some (recalcBlockSummary
      { b with houses := setA b.houses houseId (mergeHouse h u) })

/-- Block-level `upsertBlock` (part_002, lines 642-668): create the block
with a provisional summary when absent, set the image, fill the missing
house keys `1..maxChalk` (without reassigning chalk numbers and without
deleting), then rebuild the summary. -/
def upsertBlockB (imageUrl : String) (maxChalk : Nat) (b? : Option BlockRecord) :
    BlockRecord :=
  let b0 : BlockRecord := match b? with
    | none =>
      { summary :=
          { total := maxChalk, verde := maxChalk, amarelo := 0, laranja := 0, vermelho := 0 }
        imageUrl := imageUrl
        houses := [] }
    | some b => b
  let b1 := { b0 with imageUrl := imageUrl }
  let hs := (keyList maxChalk).foldl
    (fun hs k => if (getA hs k).isSome then hs else hs ++ [(k, defaultHouse k)]) b1.houses
  recalcBlockSummary { b1 with houses := hs }

/-- Navigate to `draft.territories[tid].blocks[bid]`, apply `f` and write the
result back; `none` models the exception the source mutators would raise on
a missing territory or block. -/
def mutateBlock (tid bid : String) (f : BlockRecord → Option BlockRecord)
    (doc : AppData) : Option AppData :=
  match getA doc.territories tid with
  | none => none
  | some t =>
    match getA t.blocks bid with
    | none => none
    | some b =>
      (f b).map fun b' =>
        { doc with territories := setA doc.territories tid { t with blocks := setA t.blocks bid b' } }

/-- Document-level `cycleHouseStatus` mutator (part_002, lines 535-543). -/
def cycleMut (now tid bid houseId : String) (doc : AppData) : Option AppData :=
  mutateBlock tid bid (cycleHouseStatusB now houseId) doc

/-- Document-level `updateHouseData` mutator (part_002, lines 551-558). -/
def updateMut (tid bid houseId : String) (u : HouseUpdates) (doc : AppData) :
    Option AppData :=
  mutateBlock tid bid (updateHouseDataB houseId u) doc

/-- Document-level `applyChalkSequencing` mutator (part_002, lines 566-588). -/
def chalkMut (tid bid : String) (max : Nat) (doc : AppData) : Option AppData :=
  mutateBlock tid bid (fun b => some (applyChalkSequencingB max b)) doc

/-- Document-level `upsertBlock` mutator (part_002, lines 634-669), with the
target block id already resolved (the source computes a fresh numeric id when
`payload.blockId` is null; the summary invariant is id-independent). -/
def upsertMut (tid bid imageUrl : String) (maxChalk : Nat) (doc : AppData) :
    Option AppData :=
  match getA doc.territories tid with
  | none => none
  | some t =>
    let b' := upsertBlockB imageUrl maxChalk (getA t.blocks bid)
    some { doc with territories := setA doc.territories tid { t with blocks := setA t.blocks bid b' } }

/-- `doc.territories[tid].blocks[bid]`. -/
def getBlockAt (doc : AppData) (tid bid : String) : Option BlockRecord :=
  (getA doc.territories tid).bind fun t => getA t.blocks bid

/-!
Transport codec (part_002, lines 93-108).  `encodeBase64` runs
`TextEncoder` (UTF-8 bytes of the text) and then `btoa`; `decodeBase64`
runs `atob` and then `TextDecoder`.  Text is represented by its sequence
of Unicode code points (`List Nat`), bytes by `List Nat` with values
below 256.
-/

/-- UTF-8 bytes of one Unicode scalar value (`TextEncoder` on one code
point). -/
def utf8EncodeChar (n : Nat) : List Nat :=
  if n < 0x80 then [n]
  else if n < 0x800 then [0xC0 + n / 64, 0x80 + n % 64]
  else if n < 0x10000 then [0xE0 + n / 4096, 0x80 + n / 64 % 64, 0x80 + n % 64]
  else [0xF0 + n / 262144, 0x80 + n / 4096 % 64, 0x80 + n / 64 % 64, 0x80 + n % 64]

/-- UTF-8 bytes of a code-point sequence. -/
def utf8Encode : List Nat → List Nat
  | [] => []
  | c :: rest => utf8EncodeChar c ++ utf8Encode rest

/-- A UTF-8 continuation byte. -/
def isCont (b : Nat) : Bool :=
  decide (0x80 ≤ b) && decide (b < 0xC0)

/-- Decode one UTF-8 code point from a leading byte `b` and the remaining
bytes, returning the code point and the bytes left over; `none` on a
malformed prefix. -/
def utf8DecodeStep (b : Nat) (rest : List Nat) : Option (Nat × List Nat) :=
  if b < 0x80 then some (b, rest)
  else if b < 0xC0 then none
  else if b < 0xE0 then
    match rest with
    | b1 :: rest1 =>
      if isCont b1 then some ((b - 0xC0) * 64 + (b1 - 0x80), rest1) else none
    | [] => none
  else if b < 0xF0 then
    match rest with
    | b1 :: b2 :: rest2 =>
      if isCont b1 && isCont b2 then
        some ((b - 0xE0) * 4096 + (b1 - 0x80) * 64 + (b2 - 0x80), rest2)
      else none
    | _ => none
  else if b < 0xF8 then
    match rest with
    | b1 :: b2 :: b3 :: rest3 =>
      if isCont b1 && isCont b2 && isCont b3 then
        some ((b - 0xF0) * 262144 + (b1 - 0x80) * 4096 + (b2 - 0x80) * 64 + (b3 - 0x80), rest3)
      else none
    | _ => none
  else none

/-- Decode a whole byte list, one code point per step; `fuel` only bounds the
number of steps (each step consumes at least one byte, so the list length is
always enough fuel).  A default `TextDecoder` is non-fatal: it never throws,
emitting U+FFFD for a malformed prefix and resuming — here one replacement
character per malformed leading byte, a simplification of the
maximal-subpart rule that only differs on malformed inputs no theorem in
this file evaluates. -/
def utf8DecodeLossyAux : Nat → List Nat → List Nat
  | _, [] => []
  | 0, _ :: _ => []
  | fuel + 1, b :: rest =>
    match utf8DecodeStep b rest with
    | some (c, rest') => c :: utf8DecodeLossyAux fuel rest'
    | none => 0xFFFD :: utf8DecodeLossyAux fuel rest

/-- UTF-8 decoding with a default (non-fatal) `TextDecoder`: total, never
an error. -/
def utf8DecodeLossy (l : List Nat) : List Nat :=
  utf8DecodeLossyAux l.length l

/-- The base64 alphabet used by `btoa` / `atob`. -/
def b64Alphabet : List Char :=
  "ABCDEFGHIJKLMNOPQRSTUVWXYZabcdefghijklmnopqrstuvwxyz0123456789+/".data

/-- Character for a sextet value. -/
def b64Char (i : Nat) : Char :=
  b64Alphabet.getD i '='

/-- Sextet value of an alphabet character (`none` on a character `atob`
rejects). -/
def b64Index? (c : Char) : Option Nat :=
  b64Alphabet.findIdx? (fun x => x == c)

/-- `btoa` on a byte list: 3 bytes become 4 sextet characters, with `=`
padding for a 1- or 2-byte tail. -/
def b64Encode : List Nat → List Char
  | [] => []
  | [b0] => [b64Char (b0 / 4), b64Char (b0 % 4 * 16), '=', '=']
  | [b0, b1] => [b64Char (b0 / 4), b64Char (b0 % 4 * 16 + b1 / 16), b64Char (b1 % 16 * 4), '=']
  | b0 :: b1 :: b2 :: rest =>
    b64Char (b0 / 4) :: b64Char (b0 % 4 * 16 + b1 / 16) ::
      b64Char (b1 % 16 * 4 + b2 / 64) :: b64Char (b2 % 64) :: b64Encode rest

/-- `atob`: decode 4 characters to 3 bytes, honouring `=` padding; `none` on
malformed input (which `atob` reports by throwing). -/
def b64Decode : List Char → Option (List Nat)
  | [] => some []
  | c0 :: c1 :: c2 :: c3 :: rest =>
    match b64Index? c0, b64Index? c1 with
    | some d0, some d1 =>
      if c2 = '=' then
        if c3 = '=' && rest.isEmpty then some [d0 * 4 + d1 / 16] else none
      else
        match b64Index? c2 with
        | some d2 =>
          if c3 = '=' then
            if rest.isEmpty then some [d0 * 4 + d1 / 16, d1 % 16 * 16 + d2 / 4] else none
          else
            match b64Index? c3 with
            | some d3 =>
              (b64Decode rest).map
                (fun tail => (d0 * 4 + d1 / 16) :: (d1 % 16 * 16 + d2 / 4) :: (d2 % 4 * 64 + d3) :: tail)
            | none => none
        | none => none
    | _, _ => none
  | _ => none

/-- `encodeBase64` (part_002, lines 93-101): UTF-8 bytes of the text, then
`btoa`. -/
def encodeBase64 (text : List Nat) : List Char :=
  b64Encode (utf8Encode text)

/-- `decodeBase64` (part_002, lines 103-108): `atob`, then `TextDecoder`.
Only `atob` can fail (throw); the default `TextDecoder` is total. -/
def decodeBase64 (payload : List Char) : Option (List Nat) :=
  (b64Decode payload).map utf8DecodeLossy

/-!
Remote store client and mutation pipeline (part_002, lines 262-394).
The asynchronous `fetch` calls are embedded by passing their outcomes in
as environment values; the pieces of React state the claims talk about
(`appState`, `remoteSha`, `notification`) form `LocalState`, while
UI-only state (selection, loading flags, modals) is out of the model.
The YAML library (`yaml.load` / `yaml.dump`) is external to the
repository, so the document codec is a parameter: `parse` returns `none`
exactly when `yaml.load` would throw (a YAML syntax error), and
otherwise the parsed value — which, because `yaml.load(decoded) as
AppData` is an unchecked cast, need not be a Document at all (`JsVal`
below).  `encodeDoc` stands for `yaml.dump` with the fixed options of
line 335.
-/

/-- What `setAppState` can be handed after a fetch: `yaml.load`'s result is
cast to `AppData` without any validation, so the stored value is either a
well-formed Document or any other YAML value — a scalar such as `"hello"`,
`undefined` for an empty file, or a wrong-shaped object — collapsed here
into the single constructor `other`. -/
inductive JsVal where
  | doc (d : AppData)
  | other
  deriving DecidableEq

/-- Notification kind, `'success' | 'error' | 'info'` (part_002, line 137). -/
inductive NotifType where
  | success
  | error
  | info
  deriving DecidableEq

/-- The distinct notification messages the pipeline surfaces.  Transport
failures carry the HTTP status they interpolate (`Falha ao buscar dados
(status)` etc.); a decode failure surfaces the decoder's own exception
message, which is a different string from every transport message. -/
inductive Msg where
  | dadosCarregados
  | estadoSincronizado
  | dadosSincronizados
  | falhaBuscar (status : Nat)
  | decodeFalha
  | configurePat
  | salvando (label : String)
  | erroObterSha (status : Nat)
  | erroCommit (status : Nat)
  | commitSucesso
  deriving DecidableEq

/-- The reasons `loadRemoteState` is invoked with (part_002, line 263). -/
inductive LoadReason where
  | initial
  | manual
  | polling
  | focus
  | postCommit
  | retry
  deriving DecidableEq

/-- The success message chosen by reason (part_002, lines 276-284). -/
def loadSuccessMsg : LoadReason → Msg
  | .initial => .dadosCarregados
  | .postCommit => .estadoSincronizado
  | _ => .dadosSincronizados

/-- The React state the claims are about. -/
structure LocalState where
  appState : Option JsVal
  remoteSha : String
  notification : Option (NotifType × Msg)
  deriving DecidableEq

/-- Outcome of one GET of the contents endpoint: `ok (content, sha)` with
the base64 payload and the content SHA, or the HTTP status of a failure
(network exceptions are surfaced through the same catch as non-ok
statuses and are folded into the failure case). -/
structure LoadEnv where
  resp : Except Nat (List Char × String)

/-- Outcomes of the two requests a commit performs and of the re-fetch
that follows a successful PUT. -/
structure CommitEnv where
  shaResp : Except Nat String
  putResp : Except Nat Unit
  postLoad : LoadEnv

/-- The HTTP requests a commit issues, in order; `putContents` records the
SHA and body sent to the contents endpoint. -/
inductive Request where
  | fetchSha
  | putContents (sha : String) (content : List Char)
  | fetchContents
  deriving DecidableEq

/-- `loadRemoteState` (part_002, lines 262-311): fetch the document, decode
the base64 payload, parse it, and replace `appState` and `remoteSha` with
whatever `yaml.load` produced — no shape validation happens, so a
non-Document parse is stored and reported as a success.  A non-ok response
or an exception thrown by `atob` / `yaml.load` lands in the shared catch,
which only surfaces an error notification. -/
def loadRemoteState (parse : List Nat → Option JsVal) (reason : LoadReason)
    (st : LocalState) (env : LoadEnv) : LocalState :=
  match env.resp with
  | .error status => { st with notification := some (.error, .falhaBuscar status) }
  | .ok (content, sha) =>
    match decodeBase64 content with
    | none => { st with notification := some (.error, .decodeFalha) }
    | some decoded =>
      match parse decoded with
      | none => { st with notification := some (.error, .decodeFalha) }
      | some v =>
        { st with
          appState := some v
          remoteSha := sha
          notification := some (.success, loadSuccessMsg reason) }

/-- `commitToGitHub` (part_002, lines 325-383) together with
`ensurePatBeforeCommit` (lines 313-323): abort when no PAT is stored;
otherwise re-fetch the content SHA, PUT the encoded document with that
fresh SHA, and on success re-fetch the whole document (`post-commit`).
Every failure only surfaces an error notification.  The second component
lists the requests issued, in order. -/
def commitToGitHub (parse : List Nat → Option JsVal) (encodeDoc : AppData → List Nat)
    (pat : String) (next : AppData) (label : String) (st : LocalState)
    (env : CommitEnv) : LocalState × List Request :=
  if pat = "" then
    ({ st with notification := some (.error, .configurePat) }, [])
  else
    let st1 := { st with notification := some (.info, .salvando label) }
    match env.shaResp with
    | .error status =>
      ({ st1 with notification := some (.error, .erroObterSha status) }, [.fetchSha])
    | .ok sha =>
      let put := Request.putContents sha (encodeBase64 (encodeDoc next))
      match env.putResp with
      | .error status =>
        ({ st1 with notification := some (.error, .erroCommit status) }, [.fetchSha, put])
      | .ok _ =>
        let st2 := { st1 with notification := some (.success, .commitSucesso) }
        (loadRemoteState parse .postCommit st2 env.postLoad, [.fetchSha, put, .fetchContents])

/-- `applyStateMutation` (part_002, lines 385-394): no-op without a loaded
document; otherwise run the mutator on a clone (cloning is the identity on
immutable values), publish the result as the new local view immediately,
and only then attempt the asynchronous commit.  When the local value is a
non-Document (`JsVal.other`), every mutator of this app dereferences a
missing field of the clone and throws before `setAppState` runs, so the
state is left unchanged. -/
def applyStateMutation (parse : List Nat → Option JsVal) (encodeDoc : AppData → List Nat)
    (pat : String) (mutator : AppData → AppData) (label : String) (st : LocalState)
    (env : CommitEnv) : LocalState × List Request :=
  match st.appState with
  | none => (st, [])
  | some .other => (st, [])
  | some (.doc doc) =>
    let draft := mutator doc
    commitToGitHub parse encodeDoc pat draft label
      { st with appState := some (.doc draft) } env

/-! Association-list lemmas. -/

lemma getA_setA_self {α : Type} (l : List (String × α)) (k : String) (v : α) :
    getA (setA l k v) k = some v := by
  induction l with
  | nil => simp [setA, getA]
  | cons p rest ih =>
    obtain ⟨k', v'⟩ := p
    by_cases hk : k' = k
    · simp [setA, getA, hk]
    · simp [setA, getA, hk, ih]

lemma getA_setA_ne {α : Type} (l : List (String × α)) (k k' : String) (v : α)
    (h : k' ≠ k) : getA (setA l k v) k' = getA l k' := by
  induction l with
  | nil => simp [setA, getA, Ne.symm h]
  | cons p rest ih =>
    obtain ⟨k0, v0⟩ := p
    by_cases hk : k0 = k
    · subst hk
      simp [setA, getA, Ne.symm h]
    · by_cases hk' : k0 = k'
      · simp [setA, getA, hk, hk', h]
      · simp [setA, getA, hk, hk', ih]

lemma getA_modifyA_self {α : Type} (l : List (String × α)) (k : String) (f : α → α) :
    getA (modifyA l k f) k = (getA l k).map f := by
  induction l with
  | nil => simp [modifyA, getA]
  | cons p rest ih =>
    obtain ⟨k', v⟩ := p
    by_cases hk : k' = k
    · simp [modifyA, getA, hk]
    · simp [modifyA, getA, hk, ih]

lemma getA_modifyA_ne {α : Type} (l : List (String × α)) (k k' : String) (f : α → α)
    (h : k' ≠ k) : getA (modifyA l k f) k' = getA l k' := by
  induction l with
  | nil => simp [modifyA, getA]
  | cons p rest ih =>
    obtain ⟨k0, v0⟩ := p
    by_cases hk : k0 = k
    · subst hk
      simp [modifyA, getA, Ne.symm h]
    · by_cases hk' : k0 = k'
      · simp [modifyA, getA, hk, hk', h]
      · simp [modifyA, getA, hk, hk', ih]

lemma getA_append_right {α : Type} (l : List (String × α)) (k : String) (v : α)
    (h : getA l k = none) : getA (l ++ [(k, v)]) k = some v := by
  induction l with
  | nil => simp [getA]
  | cons p rest ih =>
    obtain ⟨k', v'⟩ := p
    by_cases hk : k' = k
    · simp [getA, hk] at h
    · simp only [List.cons_append, getA, if_neg hk] at h ⊢
      exact ih h

lemma getA_append_ne {α : Type} (l : List (String × α)) (k k' : String) (v : α)
    (h : k' ≠ k) : getA (l ++ [(k, v)]) k' = getA l k' := by
  induction l with
  | nil => simp [getA, Ne.symm h]
  | cons p rest ih =>
    obtain ⟨k0, v0⟩ := p
    by_cases hk : k0 = k'
    · simp [getA, hk]
    · simp only [List.cons_append, getA, if_neg hk]
      exact ih

lemma getA_filter {α : Type} (l : List (String × α)) (q : String → Bool) (k : String) :
    getA (l.filter (fun p => q p.1)) k = if q k then getA l k else none := by
  induction l with
  | nil => simp [getA]
  | cons p rest ih =>
    obtain ⟨k', v⟩ := p
    by_cases hk : k' = k
    · subst hk
      by_cases hq : q k'
      · simp [List.filter_cons, hq, getA, ih]
      · simp [List.filter_cons, hq, getA, ih]
    · by_cases hq : q k'
      · simp [List.filter_cons, hq, getA, hk, ih]
      · simp [List.filter_cons, hq, getA, hk, ih]

/-! The recalculated summary always satisfies the counting invariant. -/

lemma recalc_summaryInv (b : BlockRecord) : summaryInv (recalcBlockSummary b) :=
  ⟨rfl, rfl, rfl, rfl, rfl⟩

lemma applyChalkSequencingB_inv (max : Nat) (b : BlockRecord) :
    summaryInv (applyChalkSequencingB max b) :=
  recalc_summaryInv _

lemma upsertBlockB_inv (imageUrl : String) (maxChalk : Nat) (b? : Option BlockRecord) :
    summaryInv (upsertBlockB imageUrl maxChalk b?) :=
  recalc_summaryInv _

lemma cycleHouseStatusB_inv {now houseId : String} {b b' : BlockRecord}
    (h : cycleHouseStatusB now houseId b = some b') : summaryInv b' := by
  unfold cycleHouseStatusB at h
  cases hg : getA b.houses houseId with
  | none => rw [hg] at h; exact absurd h (by simp)
  | some h0 =>
    rw [hg] at h
    injection h with h
    exact h ▸ recalc_summaryInv _

lemma updateHouseDataB_inv {houseId : String} {u : HouseUpdates} {b b' : BlockRecord}
    (h : updateHouseDataB houseId u b = some b') : summaryInv b' := by
  unfold updateHouseDataB at h
  cases hg : getA b.houses houseId with
  | none => rw [hg] at h; exact absurd h (by simp)
  | some h0 =>
    rw [hg] at h
    injection h with h
    exact h ▸ recalc_summaryInv _

lemma mutateBlock_getBlockAt {tid bid : String} {f : BlockRecord → Option BlockRecord}
    {doc d' : AppData} (h : mutateBlock tid bid f doc = some d') :
    ∃ b b', f b = some b' ∧ getBlockAt d' tid bid = some b' := by
  unfold mutateBlock at h
  split at h
  next => simp at h
  next t hT =>
    split at h
    next => simp at h
    next b hB =>
      rcases Option.map_eq_some'.mp h with ⟨b', hf, hd⟩
      refine ⟨b, b', hf, ?_⟩
      subst hd
      simp [getBlockAt, getA_setA_self]

/-- C1: immediately after each house-touching mutation of the Mutation
Pipeline — cycling a house status, updating house fields, resequencing a
block, creating or updating a block — the mutated block's summary counts
its houses exactly: `total` is the number of houses and each per-status
counter is the number of houses with that status. -/
theorem claim_c1_summary_fresh_after_every_mutation :
    ∀ (doc : AppData) (tid bid houseId now imageUrl : String) (u : HouseUpdates)
      (max maxChalk : Nat),
    (∀ d', cycleMut now tid bid houseId doc = some d' →
      ∀ b', getBlockAt d' tid bid = some b' → summaryInv b') ∧
    (∀ d', updateMut tid bid houseId u doc = some d' →
      ∀ b', getBlockAt d' tid bid = some b' → summaryInv b') ∧
    (∀ d', chalkMut tid bid max doc = some d' →
      ∀ b', getBlockAt d' tid bid = some b' → summaryInv b') ∧
    (∀ d', upsertMut tid bid imageUrl maxChalk doc = some d' →
      ∀ b', getBlockAt d' tid bid = some b' → summaryInv b') := by
  intro doc tid bid houseId now imageUrl u max maxChalk
  refine ⟨?_, ?_, ?_, ?_⟩
  · intro d' h b' hb'
    obtain ⟨b, b'', hf, hget⟩ := mutateBlock_getBlockAt h
    rw [hget] at hb'
    injection hb' with hb'
    exact hb' ▸ cycleHouseStatusB_inv hf
  · intro d' h b' hb'
    obtain ⟨b, b'', hf, hget⟩ := mutateBlock_getBlockAt h
    rw [hget] at hb'
    injection hb' with hb'
    exact hb' ▸ updateHouseDataB_inv hf
  · intro d' h b' hb'
    obtain ⟨b, b'', hf, hget⟩ := mutateBlock_getBlockAt h
    rw [hget] at hb'
    injection hb' with hb'
    injection hf with hf
    subst hb'
    exact hf ▸ applyChalkSequencingB_inv max b
  · intro d' h b' hb'
    unfold upsertMut at h
    split at h
    next => simp at h
    next t hT =>
      injection h with h
      subst h
      simp [getBlockAt, getA_setA_self] at hb'
      exact hb' ▸ upsertBlockB_inv imageUrl maxChalk (getA t.blocks bid)

/-- Witness for C1: cycling the single house of a concrete one-house block
yields a block whose summary satisfies the counting invariant. -/
theorem claim_c1_witness :
    summaryInv ⟨⟨1, 0, 1, 0, 0⟩, "img", [("1", ⟨2, "1", "", "", some "now"⟩)]⟩ :=
  (claim_c1_summary_fresh_after_every_mutation
      ⟨⟨"a@b", []⟩,
        [("01", ⟨"T", "Em Uso", "2024",
          [("1", ⟨⟨1, 1, 0, 0, 0⟩, "img", [("1", ⟨1, "1", "", "", none⟩)]⟩)]⟩)]⟩
      "01" "1" "1" "now" "img" ⟨none, none, none, none, none⟩ 0 0).1
    ⟨⟨"a@b", []⟩,
      [("01", ⟨"T", "Em Uso", "2024",
        [("1", ⟨⟨1, 0, 1, 0, 0⟩, "img", [("1", ⟨2, "1", "", "", some "now"⟩)]⟩)]⟩)]⟩
    (by decide)
    ⟨⟨1, 0, 1, 0, 0⟩, "img", [("1", ⟨2, "1", "", "", some "now"⟩)]⟩
    (by decide)

/-- C3: `hasCapability` grants a capability exactly when the rank of the
holder's role is at least the rank of the required role, the four ranks are
strictly ordered Comum < Capitão < Admin < Super Admin, and capability is
monotone in the holder's role. -/
theorem claim_c3_hasCapability_rank_order :
    ∀ r required : UserRole,
    (hasCapability r required = true ↔ roleHierarchy r ≥ roleHierarchy required) ∧
    (roleHierarchy UserRole.comum < roleHierarchy UserRole.capitao ∧
      roleHierarchy UserRole.capitao < roleHierarchy UserRole.admin ∧
      roleHierarchy UserRole.admin < roleHierarchy UserRole.superAdmin) ∧
    (∀ r1 r2 : UserRole, roleHierarchy r1 ≤ roleHierarchy r2 →
      hasCapability r1 required = true → hasCapability r2 required = true) := by
  decide

/-- Witness for C3: the monotonicity clause applied at Capitão ≤ Admin. -/
theorem claim_c3_witness :
    hasCapability UserRole.admin UserRole.capitao = true :=
  (claim_c3_hasCapability_rank_order UserRole.capitao UserRole.capitao).2.2
    UserRole.capitao UserRole.admin (by decide) (by decide)

/-- C4: for a house whose status is one of the four legal values, four
applications of the status-cycle return the status to its original value, and
every single application stamps `lastVisit` with the supplied timestamp. -/
theorem claim_c4_cycle_four_times_and_lastVisit :
    ∀ (h : HouseRecord) (n1 n2 n3 n4 : String),
    ((h.status = 1 ∨ h.status = 2 ∨ h.status = 3 ∨ h.status = 4) →
      (cycleHouse n4 (cycleHouse n3 (cycleHouse n2 (cycleHouse n1 h)))).status = h.status) ∧
    (∀ (now : String) (h' : HouseRecord), (cycleHouse now h').lastVisit = some now) := by
  intro h n1 n2 n3 n4
  constructor
  · intro hs
    show cycleStatus (cycleStatus (cycleStatus (cycleStatus h.status))) = h.status
    rcases hs with h1 | h1 | h1 | h1 <;> rw [h1] <;> decide
  · intro now h'
    rfl

/-- Witness for C4: a status-2 house returns to status 2 after four cycles,
and a cycle stamps `lastVisit`. -/
theorem claim_c4_witness :
    (cycleHouse "d" (cycleHouse "c" (cycleHouse "b" (cycleHouse "a"
        ⟨2, "1", "", "", none⟩)))).status = (⟨2, "1", "", "", none⟩ : HouseRecord).status ∧
    (cycleHouse "t" ⟨1, "1", "", "", none⟩).lastVisit = some "t" :=
  ⟨(claim_c4_cycle_four_times_and_lastVisit ⟨2, "1", "", "", none⟩ "a" "b" "c" "d").1
      (by decide),
    (claim_c4_cycle_four_times_and_lastVisit ⟨2, "1", "", "", none⟩ "a" "b" "c" "d").2
      "t" ⟨1, "1", "", "", none⟩⟩

/-- When every house status is one of 1..4, the four per-status counts
partition the house list. -/
lemma countP_status_partition (l : List (String × HouseRecord))
    (hb : ∀ p ∈ l, 1 ≤ p.2.status ∧ p.2.status ≤ 4) :
    l.countP (fun p => p.2.status == 1) + l.countP (fun p => p.2.status == 2) +
      l.countP (fun p => p.2.status == 3) + l.countP (fun p => p.2.status == 4) = l.length := by
  induction l with
  | nil => simp
  | cons a l ih =>
    have ha := hb a (List.mem_cons_self a l)
    have ih' := ih (fun p hp => hb p (List.mem_cons_of_mem a hp))
    have hcase : a.2.status = 1 ∨ a.2.status = 2 ∨ a.2.status = 3 ∨ a.2.status = 4 := by
      omega
    rcases hcase with hs | hs | hs | hs <;>
      simp [List.countP_cons, hs] <;> omega

/-- C8: the Aggregate Recalculator is idempotent — recalculating twice equals
recalculating once — its `total` is the number of houses, and when every house
status lies in 1..4 the per-status counters sum to `total`. -/
theorem claim_c8_recalculate_idempotent_consistent :
    ∀ b : BlockRecord,
    recalcBlockSummary (recalcBlockSummary b) = recalcBlockSummary b ∧
    (recalcBlockSummary b).summary.total = b.houses.length ∧
    ((∀ p ∈ b.houses, 1 ≤ p.2.status ∧ p.2.status ≤ 4) →
      (recalcBlockSummary b).summary.verde + (recalcBlockSummary b).summary.amarelo +
        (recalcBlockSummary b).summary.laranja + (recalcBlockSummary b).summary.vermelho =
        (recalcBlockSummary b).summary.total) := by
  intro b
  refine ⟨rfl, rfl, fun hb => ?_⟩
  simpa using countP_status_partition b.houses hb

/-- Witness for C8: the counter-sum clause on a concrete two-house block. -/
theorem claim_c8_witness :
    (recalcBlockSummary ⟨⟨9, 9, 9, 9, 9⟩, "",
        [("1", ⟨1, "1", "", "", none⟩), ("2", ⟨3, "2", "", "", none⟩)]⟩).summary.verde +
      (recalcBlockSummary ⟨⟨9, 9, 9, 9, 9⟩, "",
        [("1", ⟨1, "1", "", "", none⟩), ("2", ⟨3, "2", "", "", none⟩)]⟩).summary.amarelo +
      (recalcBlockSummary ⟨⟨9, 9, 9, 9, 9⟩, "",
        [("1", ⟨1, "1", "", "", none⟩), ("2", ⟨3, "2", "", "", none⟩)]⟩).summary.laranja +
      (recalcBlockSummary ⟨⟨9, 9, 9, 9, 9⟩, "",
        [("1", ⟨1, "1", "", "", none⟩), ("2", ⟨3, "2", "", "", none⟩)]⟩).summary.vermelho =
      (recalcBlockSummary ⟨⟨9, 9, 9, 9, 9⟩, "",
        [("1", ⟨1, "1", "", "", none⟩), ("2", ⟨3, "2", "", "", none⟩)]⟩).summary.total :=
  (claim_c8_recalculate_idempotent_consistent ⟨⟨9, 9, 9, 9, 9⟩, "",
    [("1", ⟨1, "1", "", "", none⟩), ("2", ⟨3, "2", "", "", none⟩)]⟩).2.2 (by decide)

/-- A failed commit attempt (missing PAT, failed SHA fetch, or failed PUT)
only surfaces an error notification and never writes `appState`. -/
lemma commit_failure_preserves_state (parse : List Nat → Option JsVal)
    (enc : AppData → List Nat) (pat : String) (next : AppData) (label : String)
    (app : Option JsVal) (rsha : String) (notif : Option (NotifType × Msg))
    (env : CommitEnv)
    (hfail : pat = "" ∨ (∃ s, env.shaResp = Except.error s) ∨
      (∃ s, env.putResp = Except.error s)) :
    (commitToGitHub parse enc pat next label ⟨app, rsha, notif⟩ env).1.appState = app ∧
    ∃ msg, (commitToGitHub parse enc pat next label ⟨app, rsha, notif⟩ env).1.notification =
      some (NotifType.error, msg) := by
  by_cases hp : pat = ""
  · refine ⟨?_, Msg.configurePat, ?_⟩ <;> simp [commitToGitHub, hp]
  · rcases hfail with hp' | ⟨s, hs⟩ | ⟨s, hs⟩
    · exact absurd hp' hp
    · refine ⟨?_, Msg.erroObterSha s, ?_⟩ <;> simp [commitToGitHub, hp, hs]
    · cases hsha : env.shaResp with
      | error s' => refine ⟨?_, Msg.erroObterSha s', ?_⟩ <;> simp [commitToGitHub, hp, hsha]
      | ok sha => refine ⟨?_, Msg.erroCommit s, ?_⟩ <;> simp [commitToGitHub, hp, hsha, hs]

/-- C5: when the asynchronous remote commit of a mutation fails (no stored
PAT, SHA fetch failure, or rejected PUT), the failure is surfaced as an error
notification and the optimistic local view published before the commit
attempt — the mutated document — is left in place; there is no rollback to
the pre-mutation document. -/
theorem claim_c5_commit_failure_no_rollback :
    ∀ (parse : List Nat → Option JsVal) (encodeDoc : AppData → List Nat) (pat : String)
      (m : AppData → AppData) (label : String) (st : LocalState) (doc : AppData)
      (env : CommitEnv),
    st.appState = some (JsVal.doc doc) →
    (pat = "" ∨ (∃ s, env.shaResp = Except.error s) ∨
      (∃ s, env.putResp = Except.error s)) →
    (applyStateMutation parse encodeDoc pat m label st env).1.appState =
      some (JsVal.doc (m doc)) ∧
    ∃ msg, (applyStateMutation parse encodeDoc pat m label st env).1.notification =
      some (NotifType.error, msg) := by
  intro parse enc pat m label st doc env hA hfail
  obtain ⟨app, rsha, notif⟩ := st
  simp only at hA
  subst hA
  have h := commit_failure_preserves_state parse enc pat (m doc) label
    (some (JsVal.doc (m doc))) rsha notif env hfail
  simpa [applyStateMutation] using h

/-- Witness for C5: a mutation whose commit is attempted without a PAT keeps
the optimistic document and surfaces an error. -/
theorem claim_c5_witness :
    (applyStateMutation (fun _ => none) (fun _ => []) "" (fun _ => ⟨⟨"x", []⟩, []⟩) "lbl"
        ⟨some (JsVal.doc ⟨⟨"", []⟩, []⟩), "s", none⟩
        ⟨Except.error 500, Except.error 500, ⟨Except.error 404⟩⟩).1.appState =
      some (JsVal.doc ⟨⟨"x", []⟩, []⟩) ∧
    ∃ msg, (applyStateMutation (fun _ => none) (fun _ => []) "" (fun _ => ⟨⟨"x", []⟩, []⟩) "lbl"
        ⟨some (JsVal.doc ⟨⟨"", []⟩, []⟩), "s", none⟩
        ⟨Except.error 500, Except.error 500, ⟨Except.error 404⟩⟩).1.notification =
      some (NotifType.error, msg) :=
  claim_c5_commit_failure_no_rollback (fun _ => none) (fun _ => []) ""
    (fun _ => ⟨⟨"x", []⟩, []⟩) "lbl" ⟨some (JsVal.doc ⟨⟨"", []⟩, []⟩), "s", none⟩
    ⟨⟨"", []⟩, []⟩ ⟨Except.error 500, Except.error 500, ⟨Except.error 404⟩⟩ rfl (Or.inl rfl)

/-- Counterexample to C6 as stated: the fetched content is the base64 of the
plain text `"hello"` (code points 104, 101, 108, 108, 111) — perfectly
malformed as a Document, yet valid base64 and valid YAML.  `atob` and the
non-fatal `TextDecoder` succeed, `yaml.load` returns the string scalar
(modelled by the `parse` argument returning `JsVal.other` on that text), and
`loadRemoteState` stores it over the previously loaded document and reports
success: the local document is NOT left as it was, and no error — decode or
otherwise — is reported. -/
theorem claim_c6_counterexample :
    (loadRemoteState
        (fun d => if d = [104, 101, 108, 108, 111] then some JsVal.other else none)
        LoadReason.polling ⟨some (JsVal.doc ⟨⟨"a@b", []⟩, []⟩), "old", none⟩
        ⟨Except.ok (encodeBase64 [104, 101, 108, 108, 111], "sNew")⟩).appState ≠
      some (JsVal.doc ⟨⟨"a@b", []⟩, []⟩) ∧
    (loadRemoteState
        (fun d => if d = [104, 101, 108, 108, 111] then some JsVal.other else none)
        LoadReason.polling ⟨some (JsVal.doc ⟨⟨"a@b", []⟩, []⟩), "old", none⟩
        ⟨Except.ok (encodeBase64 [104, 101, 108, 108, 111], "sNew")⟩).notification =
      some (NotifType.success, Msg.dadosSincronizados) := by
  decide

/-- C6 (amended): decode failure protects local state only when decoding
actually throws — invalid base64 (`atob`) or a YAML syntax error
(`yaml.load`).  In that case the error is reported as a decode failure,
distinct from every transport-failure message, and the local state is left
exactly as it was.  But content that `yaml.load` parses successfully is
stored wholesale — Document-shaped or not — with a success report, because
the `as AppData` cast performs no validation. -/
theorem claim_c6_throwing_decode_reported_state_kept :
    ∀ (parse : List Nat → Option JsVal) (reason : LoadReason) (st : LocalState)
      (content : List Char) (sha : String) (env : LoadEnv),
    env.resp = Except.ok (content, sha) →
    ((decodeBase64 content = none ∨
        (∃ d, decodeBase64 content = some d ∧ parse d = none)) →
      loadRemoteState parse reason st env =
        { st with notification := some (NotifType.error, Msg.decodeFalha) } ∧
      (∀ status : Nat, Msg.decodeFalha ≠ Msg.falhaBuscar status)) ∧
    (∀ d v, decodeBase64 content = some d → parse d = some v →
      loadRemoteState parse reason st env =
        { st with appState := some v, remoteSha := sha,
                  notification := some (NotifType.success, loadSuccessMsg reason) }) := by
  intro parse reason st content sha env hresp
  constructor
  · intro hfail
    refine ⟨?_, fun status h => by cases h⟩
    unfold loadRemoteState
    rw [hresp]
    rcases hfail with hd | ⟨d, hd, hp⟩
    · simp [hd]
    · simp [hd, hp]
  · intro d v hd hp
    unfold loadRemoteState
    rw [hresp]
    simp [hd, hp]

/-- Witness for C6 (amended): a one-character payload makes `atob` throw; the
load leaves a concrete state untouched apart from the decode-error
notification. -/
theorem claim_c6_witness :
    loadRemoteState (fun _ => none) LoadReason.manual ⟨none, "", none⟩ ⟨Except.ok (['a'], "s")⟩ =
      { (⟨none, "", none⟩ : LocalState) with
        notification := some (NotifType.error, Msg.decodeFalha) } ∧
    (∀ status : Nat, Msg.decodeFalha ≠ Msg.falhaBuscar status) :=
  (claim_c6_throwing_decode_reported_state_kept (fun _ => none) LoadReason.manual
    ⟨none, "", none⟩ ['a'] "s" ⟨Except.ok (['a'], "s")⟩ rfl).1 (Or.inl rfl)

/-- A commit that gets past the PAT check issues exactly: the SHA fetch, then
a PUT carrying the SHA returned by that fetch (not any cached value — the
state `st`, including its `remoteSha`, is arbitrary). -/
lemma commit_put_uses_env_sha (parse : List Nat → Option JsVal)
    (enc : AppData → List Nat) (pat : String) (next : AppData) (label : String)
    (st : LocalState) (env : CommitEnv) (sha : String)
    (hp : pat ≠ "") (hs : env.shaResp = Except.ok sha) :
    ∃ rest, (commitToGitHub parse enc pat next label st env).2 =
      Request.fetchSha :: Request.putContents sha (encodeBase64 (enc next)) :: rest := by
  cases hput : env.putResp with
  | error s => exact ⟨[], by simp [commitToGitHub, hp, hs, hput]⟩
  | ok u => exact ⟨[Request.fetchContents], by simp [commitToGitHub, hp, hs, hput]⟩

/-- C7: every commit PUT uses the content SHA re-fetched at that commit's own
time (never the SHA cached in local state — the local state is universally
quantified), and when two commits run in sequence each PUT carries the SHA
fetched by its own attempt. -/
theorem claim_c7_fresh_sha_per_commit :
    ∀ (parse : List Nat → Option JsVal) (encodeDoc : AppData → List Nat) (pat : String)
      (next : AppData) (label : String) (st : LocalState) (env : CommitEnv) (sha : String),
    pat ≠ "" → env.shaResp = Except.ok sha →
    (∃ rest, (commitToGitHub parse encodeDoc pat next label st env).2 =
      Request.fetchSha :: Request.putContents sha (encodeBase64 (encodeDoc next)) :: rest) ∧
    (∀ (next2 : AppData) (label2 : String) (env2 : CommitEnv) (sha2 : String),
      env2.shaResp = Except.ok sha2 →
      ∃ rest2, (commitToGitHub parse encodeDoc pat next2 label2
          (commitToGitHub parse encodeDoc pat next label st env).1 env2).2 =
        Request.fetchSha :: Request.putContents sha2 (encodeBase64 (encodeDoc next2)) :: rest2) := by
  intro parse enc pat next label st env sha hp hs
  refine ⟨commit_put_uses_env_sha parse enc pat next label st env sha hp hs, ?_⟩
  intro next2 label2 env2 sha2 hs2
  exact commit_put_uses_env_sha parse enc pat next2 label2
    (commitToGitHub parse enc pat next label st env).1 env2 sha2 hp hs2

/-- Witness for C7: a concrete commit against a state caching `"old"` still
PUTs with the freshly fetched SHA `"s1"`. -/
theorem claim_c7_witness :
    ∃ rest, (commitToGitHub (fun _ => none) (fun _ => []) "t" ⟨⟨"", []⟩, []⟩ "l"
        ⟨none, "old", none⟩ ⟨Except.ok "s1", Except.ok (), ⟨Except.error 1⟩⟩).2 =
      Request.fetchSha :: Request.putContents "s1" (encodeBase64 []) :: rest :=
  (claim_c7_fresh_sha_per_commit (fun _ => none) (fun _ => []) "t" ⟨⟨"", []⟩, []⟩ "l"
    ⟨none, "old", none⟩ ⟨Except.ok "s1", Except.ok (), ⟨Except.error 1⟩⟩ "s1"
    (by decide) rfl).1

/-! Decimal keys: `String(n)` round-trips through `Number(·)`. -/

lemma digitsVal_append (l : List Char) (c : Char) :
    digitsVal (l ++ [c]) = digitsVal l * 10 + (c.toNat - 48) := by
  simp [digitsVal, List.foldl_append]

lemma digitChar_spec : ∀ d, d < 10 →
    (digitChar d).toNat - 48 = d ∧ (digitChar d).isDigit = true := by
  decide

lemma natToKeyAux_spec : ∀ fuel n, n ≤ fuel →
    natToKeyAux fuel n ≠ [] ∧ (natToKeyAux fuel n).all Char.isDigit = true ∧
      digitsVal (natToKeyAux fuel n) = n := by
  intro fuel
  induction fuel with
  | zero =>
    intro n hn
    have hn0 : n = 0 := by omega
    subst hn0
    refine ⟨by decide, by decide, by decide⟩
  | succ fuel ih =>
    intro n hn
    by_cases h10 : n < 10
    · have hd := digitChar_spec n h10
      simp only [natToKeyAux, if_pos h10]
      refine ⟨by simp, by simp [hd.2], ?_⟩
      show digitsVal [digitChar n] = n
      have : digitsVal [digitChar n] = (digitChar n).toNat - 48 := by
        simp [digitsVal]
      rw [this, hd.1]
    · have hrec : n / 10 ≤ fuel := by omega
      obtain ⟨hne, hdig, hval⟩ := ih (n / 10) hrec
      have hd := digitChar_spec (n % 10) (by omega)
      simp only [natToKeyAux, if_neg h10]
      refine ⟨by simp, by simp [List.all_append, hdig, hd.2], ?_⟩
      rw [digitsVal_append, hval, hd.1]
      omega

lemma keyNum_natToKey (n : Nat) : keyNum? (natToKey n) = some n := by
  obtain ⟨hne, hdig, hval⟩ := natToKeyAux_spec n n (Nat.le_refl n)
  have hempty : (natToKeyAux n n).isEmpty = false := by
    cases h : natToKeyAux n n with
    | nil => exact absurd h hne
    | cons a l => simp
  simp [keyNum?, natToKey, hempty, hdig, hval]

lemma natToKey_inj {a b : Nat} (h : natToKey a = natToKey b) : a = b := by
  have ha := keyNum_natToKey a
  rw [h, keyNum_natToKey b] at ha
  exact (Option.some.inj ha).symm

lemma keyList_nodup (max : Nat) : (keyList max).Nodup := by
  refine (List.nodup_range' 1 max).map ?_
  intro a b hab
  exact natToKey_inj hab

lemma natToKey_mem_keyList {i max : Nat} (h1 : 1 ≤ i) (h2 : i ≤ max) :
    natToKey i ∈ keyList max := by
  exact List.mem_map_of_mem natToKey (List.mem_range'_1.mpr ⟨h1, by omega⟩)

/-! The fill loop of the resequencer, one key at a time and folded. -/

lemma getA_seqStep_self (hs : List (String × HouseRecord)) (k : String) :
    getA (seqStep hs k) k = some (match getA hs k with
      | some h => { h with chalkNumber := k }
      | none => defaultHouse k) := by
  unfold seqStep
  cases hg : getA hs k with
  | some h => simp [hg, getA_modifyA_self]
  | none =>
    simp only [hg, Option.isSome_none, Bool.false_eq_true, if_false,
      getA_modifyA_self, getA_append_right hs k (defaultHouse k) hg]
    rfl

lemma getA_seqStep_ne (hs : List (String × HouseRecord)) (k k' : String)
    (h : k' ≠ k) : getA (seqStep hs k) k' = getA hs k' := by
  unfold seqStep
  by_cases hg : (getA hs k).isSome
  · rw [if_pos hg, getA_modifyA_ne _ _ _ _ h]
  · rw [if_neg hg, getA_modifyA_ne _ _ _ _ h, getA_append_ne _ _ _ _ h]

lemma getA_foldl_seqStep_notmem :
    ∀ (keys : List String) (hs : List (String × HouseRecord)) (k : String), k ∉ keys →
      getA (keys.foldl seqStep hs) k = getA hs k := by
  intro keys
  induction keys with
  | nil => intro hs k _; rfl
  | cons k0 keys ih =>
    intro hs k hk
    have h0 : k ≠ k0 := fun h => hk (h ▸ List.mem_cons_self k0 keys)
    simp only [List.foldl_cons]
    rw [ih (seqStep hs k0) k (fun h => hk (List.mem_cons_of_mem k0 h)),
      getA_seqStep_ne _ _ _ h0]

lemma getA_foldl_seqStep_mem :
    ∀ (keys : List String) (hs : List (String × HouseRecord)) (k : String),
      k ∈ keys → keys.Nodup →
      getA (keys.foldl seqStep hs) k = some (match getA hs k with
        | some h => { h with chalkNumber := k }
        | none => defaultHouse k) := by
  intro keys
  induction keys with
  | nil => intro hs k hk; cases hk
  | cons k0 keys ih =>
    intro hs k hk hnd
    simp only [List.foldl_cons]
    rcases List.mem_cons.mp hk with h0 | hmem
    · subst h0
      have hnot : k ∉ keys := (List.nodup_cons.mp hnd).1
      rw [getA_foldl_seqStep_notmem keys _ k hnot, getA_seqStep_self]
    · have h0 : k ≠ k0 := by
        rintro rfl
        exact (List.nodup_cons.mp hnd).1 hmem
      rw [ih (seqStep hs k0) k hmem (List.nodup_cons.mp hnd).2,
        getA_seqStep_ne _ _ _ h0]

lemma applyChalkSequencingB_houses (max : Nat) (b : BlockRecord) :
    (applyChalkSequencingB max b).houses =
      ((keyList max).foldl seqStep b.houses).filter (fun p => chalkKeep max p.1) := rfl

/-- C2: resequencing any block to `max = N ≥ 1` leaves a house under every
key `"1" .. "N"`, each with `chalkNumber` equal to its key; every house whose
numeric key exceeds `N` is removed; the summary is rederived from the
resulting houses; and resequencing an empty block with `max = 3` produces
exactly houses `1..3` with status 1 and summary
`{total: 3, verde: 3, amarelo: 0, laranja: 0, vermelho: 0}`. -/
theorem claim_c2_resequencing_contiguous :
    ∀ (b : BlockRecord) (N : Nat), 1 ≤ N →
    (∀ i, 1 ≤ i → i ≤ N →
      ∃ h, getA (applyChalkSequencingB N b).houses (natToKey i) = some h ∧
        h.chalkNumber = natToKey i) ∧
    (∀ key m, keyNum? key = some m → N < m →
      getA (applyChalkSequencingB N b).houses key = none) ∧
    summaryInv (applyChalkSequencingB N b) ∧
    applyChalkSequencingB 3 ⟨⟨0, 0, 0, 0, 0⟩, "", []⟩ =
      ⟨⟨3, 3, 0, 0, 0⟩, "",
        [("1", ⟨1, "1", "", "", none⟩), ("2", ⟨1, "2", "", "", none⟩),
          ("3", ⟨1, "3", "", "", none⟩)]⟩ := by
  intro b N hN
  refine ⟨?_, ?_, applyChalkSequencingB_inv N b, by decide⟩
  · intro i h1 h2
    have hkeep : chalkKeep N (natToKey i) = true := by
      simp [chalkKeep, keyNum_natToKey]
      omega
    rw [applyChalkSequencingB_houses, getA_filter, if_pos hkeep,
      getA_foldl_seqStep_mem _ _ _ (natToKey_mem_keyList h1 h2) (keyList_nodup N)]
    cases hg : getA b.houses (natToKey i) with
    | none => exact ⟨defaultHouse (natToKey i), rfl, rfl⟩
    | some h => exact ⟨{ h with chalkNumber := natToKey i }, rfl, rfl⟩
  · intro key m hparse hgt
    have hkeep : chalkKeep N key = false := by
      simp [chalkKeep, hparse]
      omega
    rw [applyChalkSequencingB_houses, getA_filter, if_neg (by simp [hkeep])]

/-- Witness for C2: resequencing the empty block to 3 creates house `"2"`
with chalk number `"2"`. -/
theorem claim_c2_witness :
    ∃ h, getA (applyChalkSequencingB 3 ⟨⟨0, 0, 0, 0, 0⟩, "", []⟩).houses (natToKey 2) =
        some h ∧ h.chalkNumber = natToKey 2 :=
  (claim_c2_resequencing_contiguous ⟨⟨0, 0, 0, 0, 0⟩, "", []⟩ 3 (by decide)).1
    2 (by decide) (by decide)

/-- C10: resequencing to `max = N` touches, for keys `"1" .. "N"`, only the
`chalkNumber` of a pre-existing house — its status, official number, notes
and last visit are all preserved — while a missing key gets the freshly
initialized house with status 1, empty official number and notes, and no
last visit. -/
theorem claim_c10_resequencing_frame :
    ∀ (b : BlockRecord) (N i : Nat), 1 ≤ i → i ≤ N →
    (∀ h, getA b.houses (natToKey i) = some h →
      ∃ h', getA (applyChalkSequencingB N b).houses (natToKey i) = some h' ∧
        h'.status = h.status ∧ h'.officialNumber = h.officialNumber ∧
        h'.notes = h.notes ∧ h'.lastVisit = h.lastVisit ∧
        h'.chalkNumber = natToKey i) ∧
    (getA b.houses (natToKey i) = none →
      getA (applyChalkSequencingB N b).houses (natToKey i) =
        some ⟨1, natToKey i, "", "", none⟩) := by
  intro b N i h1 h2
  have hkeep : chalkKeep N (natToKey i) = true := by
    simp [chalkKeep, keyNum_natToKey]
    omega
  constructor
  · intro h hg
    refine ⟨{ h with chalkNumber := natToKey i }, ?_, rfl, rfl, rfl, rfl, rfl⟩
    rw [applyChalkSequencingB_houses, getA_filter, if_pos hkeep,
      getA_foldl_seqStep_mem _ _ _ (natToKey_mem_keyList h1 h2) (keyList_nodup N), hg]
  · intro hg
    rw [applyChalkSequencingB_houses, getA_filter, if_pos hkeep,
      getA_foldl_seqStep_mem _ _ _ (natToKey_mem_keyList h1 h2) (keyList_nodup N), hg]
    rfl

/-- Witness for C10: resequencing a one-house block to 2 keeps every field of
house `"1"` except the chalk number. -/
theorem claim_c10_witness :
    ∃ h', getA (applyChalkSequencingB 2
        ⟨⟨0, 0, 0, 0, 0⟩, "", [("1", ⟨3, "9", "45", "obs", some "t"⟩)]⟩).houses
        (natToKey 1) = some h' ∧
      h'.status = 3 ∧ h'.officialNumber = "45" ∧ h'.notes = "obs" ∧
      h'.lastVisit = some "t" ∧ h'.chalkNumber = natToKey 1 :=
  (claim_c10_resequencing_frame
      ⟨⟨0, 0, 0, 0, 0⟩, "", [("1", ⟨3, "9", "45", "obs", some "t"⟩)]⟩ 2 1
      (by decide) (by decide)).1
    ⟨3, "9", "45", "obs", some "t"⟩ (by decide)

/-! Round-trip of the transport codec: base64 over the UTF-8 bytes. -/

lemma b64Index_b64Char : ∀ i, i < 64 → b64Index? (b64Char i) = some i := by
  decide

lemma b64Char_ne_pad : ∀ i, i < 64 → ¬(b64Char i = '=') := by
  decide

lemma b64_rt : ∀ bs : List Nat, (∀ b ∈ bs, b < 256) →
    b64Decode (b64Encode bs) = some bs := by
  intro bs
  induction bs using b64Encode.induct with
  | case1 => intro _; rfl
  | case2 b0 =>
    intro hb
    have h0 : b0 < 256 := hb b0 (by simp)
    simp only [b64Encode, b64Decode, b64Index_b64Char (b0 / 4) (by omega),
      b64Index_b64Char (b0 % 4 * 16) (by omega)]
    simp
    omega
  | case3 b0 b1 =>
    intro hb
    have h0 : b0 < 256 := hb b0 (by simp)
    have h1 : b1 < 256 := hb b1 (by simp)
    simp only [b64Encode, b64Decode, b64Index_b64Char (b0 / 4) (by omega),
      b64Index_b64Char (b0 % 4 * 16 + b1 / 16) (by omega),
      b64Index_b64Char (b1 % 16 * 4) (by omega)]
    rw [if_neg (b64Char_ne_pad (b1 % 16 * 4) (by omega))]
    simp
    omega
  | case4 b0 b1 b2 rest ih =>
    intro hb
    have h0 : b0 < 256 := hb b0 (by simp)
    have h1 : b1 < 256 := hb b1 (by simp)
    have h2 : b2 < 256 := hb b2 (by simp)
    have hrest : ∀ b ∈ rest, b < 256 := fun b hbm => hb b (by simp [hbm])
    simp only [b64Encode, b64Decode, b64Index_b64Char (b0 / 4) (by omega),
      b64Index_b64Char (b0 % 4 * 16 + b1 / 16) (by omega),
      b64Index_b64Char (b1 % 16 * 4 + b2 / 64) (by omega),
      b64Index_b64Char (b2 % 64) (by omega)]
    rw [if_neg (b64Char_ne_pad (b1 % 16 * 4 + b2 / 64) (by omega)),
      if_neg (b64Char_ne_pad (b2 % 64) (by omega))]
    rw [ih hrest]
    simp
    omega

lemma utf8DecodeStep_encodeChar (n : Nat) (hn : n < 0x110000) (rest : List Nat) :
    ∃ b bs, utf8EncodeChar n = b :: bs ∧
      utf8DecodeStep b (bs ++ rest) = some (n, rest) := by
  by_cases h1 : n < 0x80
  · refine ⟨n, [], by simp [utf8EncodeChar, h1], ?_⟩
    simp only [List.nil_append, utf8DecodeStep, if_pos h1]
  · by_cases h2 : n < 0x800
    · have hcont : isCont (0x80 + n % 64) = true := by
        simp only [isCont, Bool.and_eq_true, decide_eq_true_eq]
        omega
      refine ⟨0xC0 + n / 64, [0x80 + n % 64], by simp [utf8EncodeChar, h1, h2], ?_⟩
      simp only [List.cons_append, List.nil_append]
      unfold utf8DecodeStep
      rw [if_neg (by omega : ¬(0xC0 + n / 64 < 0x80)),
        if_neg (by omega : ¬(0xC0 + n / 64 < 0xC0)),
        if_pos (by omega : 0xC0 + n / 64 < 0xE0)]
      simp only [hcont, if_true]
      have hv : (0xC0 + n / 64 - 0xC0) * 64 + (0x80 + n % 64 - 0x80) = n := by omega
      rw [hv]
    · by_cases h3 : n < 0x10000
      · have hc1 : isCont (0x80 + n / 64 % 64) = true := by
          simp only [isCont, Bool.and_eq_true, decide_eq_true_eq]
          omega
        have hc2 : isCont (0x80 + n % 64) = true := by
          simp only [isCont, Bool.and_eq_true, decide_eq_true_eq]
          omega
        refine ⟨0xE0 + n / 4096, [0x80 + n / 64 % 64, 0x80 + n % 64],
          by simp [utf8EncodeChar, h1, h2, h3], ?_⟩
        simp only [List.cons_append, List.nil_append]
        unfold utf8DecodeStep
        rw [if_neg (by omega : ¬(0xE0 + n / 4096 < 0x80)),
          if_neg (by omega : ¬(0xE0 + n / 4096 < 0xC0)),
          if_neg (by omega : ¬(0xE0 + n / 4096 < 0xE0)),
          if_pos (by omega : 0xE0 + n / 4096 < 0xF0)]
        simp only [hc1, hc2, Bool.and_self, if_true]
        have hv : (0xE0 + n / 4096 - 0xE0) * 4096 + (0x80 + n / 64 % 64 - 0x80) * 64 +
            (0x80 + n % 64 - 0x80) = n := by omega
        rw [hv]
      · have hc1 : isCont (0x80 + n / 4096 % 64) = true := by
          simp only [isCont, Bool.and_eq_true, decide_eq_true_eq]
          omega
        have hc2 : isCont (0x80 + n / 64 % 64) = true := by
          simp only [isCont, Bool.and_eq_true, decide_eq_true_eq]
          omega
        have hc3 : isCont (0x80 + n % 64) = true := by
          simp only [isCont, Bool.and_eq_true, decide_eq_true_eq]
          omega
        refine ⟨0xF0 + n / 262144, [0x80 + n / 4096 % 64, 0x80 + n / 64 % 64, 0x80 + n % 64],
          by simp [utf8EncodeChar, h1, h2, h3], ?_⟩
        simp only [List.cons_append, List.nil_append]
        unfold utf8DecodeStep
        rw [if_neg (by omega : ¬(0xF0 + n / 262144 < 0x80)),
          if_neg (by omega : ¬(0xF0 + n / 262144 < 0xC0)),
          if_neg (by omega : ¬(0xF0 + n / 262144 < 0xE0)),
          if_neg (by omega : ¬(0xF0 + n / 262144 < 0xF0)),
          if_pos (by omega : 0xF0 + n / 262144 < 0xF8)]
        simp only [hc1, hc2, hc3, Bool.and_self, if_true]
        have hv : (0xF0 + n / 262144 - 0xF0) * 262144 + (0x80 + n / 4096 % 64 - 0x80) * 4096 +
            (0x80 + n / 64 % 64 - 0x80) * 64 + (0x80 + n % 64 - 0x80) = n := by omega
        rw [hv]

lemma utf8DecodeLossyAux_encode : ∀ (fuel : Nat) (s : List Nat), (∀ n ∈ s, n < 0x110000) →
    s.length ≤ fuel → utf8DecodeLossyAux fuel (utf8Encode s) = s := by
  intro fuel
  induction fuel with
  | zero =>
    intro s hs hl
    have hnil : s = [] := List.length_eq_zero.mp (by omega)
    subst hnil
    rfl
  | succ f ih =>
    intro s hs hl
    cases s with
    | nil => rfl
    | cons c s' =>
      have hc := hs c (List.mem_cons_self _ _)
      have hs' : ∀ n ∈ s', n < 0x110000 := fun n hn => hs n (List.mem_cons_of_mem _ hn)
      obtain ⟨b, bs, henc, hstep⟩ := utf8DecodeStep_encodeChar c hc (utf8Encode s')
      simp only [utf8Encode, henc, List.cons_append]
      simp only [utf8DecodeLossyAux, hstep]
      rw [ih s' hs' (by simp at hl; omega)]

lemma utf8Encode_length_ge (s : List Nat) : s.length ≤ (utf8Encode s).length := by
  induction s with
  | nil => simp [utf8Encode]
  | cons c s' ih =>
    have hne : utf8EncodeChar c ≠ [] := by
      unfold utf8EncodeChar
      by_cases h1 : c < 0x80
      · simp [h1]
      · by_cases h2 : c < 0x800
        · simp [h1, h2]
        · by_cases h3 : c < 0x10000
          · simp [h1, h2, h3]
          · simp [h1, h2, h3]
    have hone : 1 ≤ (utf8EncodeChar c).length := by
      cases h : utf8EncodeChar c with
      | nil => exact absurd h hne
      | cons a l => simp
    simp only [utf8Encode, List.length_append, List.length_cons]
    omega

lemma utf8DecodeLossy_encode (s : List Nat) (hs : ∀ n ∈ s, n < 0x110000) :
    utf8DecodeLossy (utf8Encode s) = s :=
  utf8DecodeLossyAux_encode (utf8Encode s).length s hs (utf8Encode_length_ge s)

lemma utf8EncodeChar_lt (n : Nat) (hn : n < 0x110000) :
    ∀ b ∈ utf8EncodeChar n, b < 256 := by
  intro b hb
  unfold utf8EncodeChar at hb
  by_cases h1 : n < 0x80
  · rw [if_pos h1] at hb
    simp only [List.mem_cons, List.not_mem_nil, or_false] at hb
    omega
  · rw [if_neg h1] at hb
    by_cases h2 : n < 0x800
    · rw [if_pos h2] at hb
      simp only [List.mem_cons, List.not_mem_nil, or_false] at hb
      omega
    · rw [if_neg h2] at hb
      by_cases h3 : n < 0x10000
      · rw [if_pos h3] at hb
        simp only [List.mem_cons, List.not_mem_nil, or_false] at hb
        omega
      · rw [if_neg h3] at hb
        simp only [List.mem_cons, List.not_mem_nil, or_false] at hb
        omega

lemma utf8Encode_lt (s : List Nat) (hs : ∀ n ∈ s, n < 0x110000) :
    ∀ b ∈ utf8Encode s, b < 256 := by
  induction s with
  | nil => intro b hb; cases hb
  | cons c rest ih =>
    intro b hb
    simp only [utf8Encode, List.mem_append] at hb
    rcases hb with hb | hb
    · exact utf8EncodeChar_lt c (hs c (List.mem_cons_self _ _)) b hb
    · exact ih (fun n hn => hs n (List.mem_cons_of_mem _ hn)) b hb

/-- C9: the transport codec round-trips Unicode text — for every sequence of
Unicode scalar values (code points below 0x110000 that are not surrogates,
which is what a well-formed JS string holds), decoding the encoded base64
payload returns exactly the original text. -/
theorem claim_c9_base64_roundtrip :
    ∀ s : List Nat, (∀ n ∈ s, n < 0x110000 ∧ ¬(0xD800 ≤ n ∧ n < 0xE000)) →
    decodeBase64 (encodeBase64 s) = some s := by
  intro s hs
  have hs' : ∀ n ∈ s, n < 0x110000 := fun n hn => (hs n hn).1
  unfold encodeBase64 decodeBase64
  rw [b64_rt (utf8Encode s) (utf8Encode_lt s hs')]
  simpa using utf8DecodeLossy_encode s hs'

/-- Witness for C9: the mixed ASCII / Latin-1 / emoji text `"Hé😀"` (code
points 72, 233, 128512) survives the round trip. -/
theorem claim_c9_witness :
    decodeBase64 (encodeBase64 [72, 233, 128512]) = some [72, 233, 128512] :=
  claim_c9_base64_roundtrip [72, 233, 128512] (by decide)

end TplSystem
